import Mathlib

/-!
Verification development for the core_probe_analysis pipeline.

The Python sources are embedded shallowly:
* a raw alignment-hit line, after `hit.strip().split('\t')`, becomes a list of
  column tokens; a token carries its literal text together with the outcome of
  Python's `float(...)` and `int(...)` on it (`none` models a `ValueError`),
  with numeric values modelled by rationals;
* the probe-sequence dictionary becomes an association list;
* `ProbeScorer.calculate_probe_score` (scripts/probe_scoring.py, lines 49-134)
  becomes `calculate_probe_score`, its per-hit loop becoming a left fold whose
  step reproduces the source's control flow, including the exact points where
  a `ValueError` aborts the current iteration;
* `round(x, n)` is modelled by rounding `x * 10^n` to the nearest integer
  (ties rounding half-up, which agrees with Python except at exact ties,
  never reached in the statements below).
-/

namespace ProbeCore

/-- One tokenized column of a raw alignment-hit line: its literal text, the
result of Python `float` on it, and the result of Python `int` on it
(`none` when the conversion raises `ValueError`). -/
structure Tok where
  raw : String
  asFloat : Option ℚ
  asInt : Option ℤ
  deriving DecidableEq

/-- A raw hit line after `hit.strip().split('\t')`: its list of columns. -/
abbrev Hit := List Tok

/-- Placeholder token; never reached, since columns are only read after the
source's `len(parts) < 12` guard. -/
def dummyTok : Tok := ⟨"", none, none⟩

/-- Column access `parts[i]`. -/
def col (h : Hit) (i : ℕ) : Tok := h.getD i dummyTok

/-- The probe-sequence dictionary `self.probes` (id to residue string). -/
abbrev ProbeDict := List (String × String)

/-- Python `probes.get(probe_id)` as an option. -/
def dictFind (d : ProbeDict) (k : String) : Option String :=
  (d.find? (fun e => e.1 == k)).map (fun e => e.2)

/-- Python `probes.get(probe_id, "")`. -/
def dictGet (d : ProbeDict) (k : String) : String := (dictFind d k).getD ""

/-- Python `probe_id in probes`. -/
def dictMem (d : ProbeDict) (k : String) : Bool := (dictFind d k).isSome

/-- Mutable state of the per-hit loop in `calculate_probe_score`. -/
structure HitAcc where
  raw_non_specificity : ℚ
  total_hits : ℕ
  perfect_matches : ℕ
  matched_chromosomes : Finset String
  deriving DecidableEq

/-- Loop state at entry: `raw_non_specificity = 0.0`, `total_hits = 0`,
`perfect_matches = 0`, `matched_chromosomes = set()`. -/
def initAcc : HitAcc := ⟨0, 0, 0, ∅⟩

/-- One iteration of the hit loop of `calculate_probe_score`
(probe_scoring.py lines 75-106): the `len(parts) < 12` guard, the
chromosome-set insertion (which in the source precedes the numeric parsing),
the parses of `pident`, `length` and — only when `pident == 100.0`, by
short-circuit of `and` — `mismatches`, each parse failure abandoning the
iteration exactly where the source's `except` clause would. -/
def hitStep (probe_length : ℕ) (acc : HitAcc) (hit : Hit) : HitAcc :=
  if hit.length < 12 then acc
  else
    let chroms := insert (col hit 1).raw acc.matched_chromosomes
    match (col hit 2).asFloat with
    | none => { acc with matched_chromosomes := chroms }
    | some pident =>
      match (col hit 3).asInt with
      | none => { acc with matched_chromosomes := chroms }
      | some len =>
        let nident : ℚ := (pident / 100) * (len : ℚ)
        let rns := if 0 < probe_length then
            acc.raw_non_specificity + nident / (probe_length : ℚ)
          else acc.raw_non_specificity
        if pident = 100 then
          match (col hit 4).asInt with
          | none => { acc with raw_non_specificity := rns, matched_chromosomes := chroms }
          | some mm =>
            if mm = 0 then
              ⟨rns, acc.total_hits + 1, acc.perfect_matches + 1, chroms⟩
            else
              ⟨rns, acc.total_hits + 1, acc.perfect_matches, chroms⟩
        else
          ⟨rns, acc.total_hits + 1, acc.perfect_matches, chroms⟩

/-- Step 4 of the source's algorithm: `1.0 / (1.0 + raw_non_specificity)`. -/
def raw_specificity_score (raw_non_specificity : ℚ) : ℚ :=
  1 / (1 + raw_non_specificity)

/-- Python `round(x, d)` (ties half-up in this model). -/
def roundTo (d : ℕ) (x : ℚ) : ℚ := ((round (x * 10 ^ d) : ℤ) : ℚ) / 10 ^ d

/-- Python `','.join(sorted(s))` on a set of strings. -/
def joinSorted (s : Finset String) : String :=
  String.intercalate "," (s.sort (· ≤ ·))

/-- The record returned by `calculate_probe_score`. -/
structure ScoreRecord where
  probe_id : String
  score : ℚ
  raw_non_specificity : ℚ
  perfect_matches : ℕ
  total_hits : ℕ
  matched_chromosomes : String
  probe_length : ℕ
  in_fasta : Bool
  deriving DecidableEq

/-- `ProbeScorer.calculate_probe_score` (probe_scoring.py lines 49-134):
the hit loop, the raw-specificity formula, the two special-case overrides in
source order, and the rounded result record. -/
def calculate_probe_score (probes : ProbeDict) (probe_id : String)
    (hits : List Hit) : ScoreRecord :=
  let probe_seq := dictGet probes probe_id
  let probe_length := probe_seq.length
  let acc := hits.foldl (hitStep probe_length) initAcc
  let final_score := 100 * raw_specificity_score acc.raw_non_specificity
  let final_score := if acc.total_hits = 0 then 100 else final_score
  let final_score := if probe_seq = "" then min final_score 30 else final_score
  { probe_id := probe_id
    score := roundTo 2 final_score
    raw_non_specificity := roundTo 4 acc.raw_non_specificity
    perfect_matches := acc.perfect_matches
    total_hits := acc.total_hits
    matched_chromosomes := joinSorted acc.matched_chromosomes
    probe_length := probe_length
    in_fasta := dictMem probes probe_id }

/-- Does a raw hit record count toward `total_hits` in the source's loop?
It must have at least 12 columns, `float(parts[2])` and `int(parts[3])` must
succeed, and — because `pident == 100.0 and int(parts[4]) == 0` short-circuits
— `int(parts[4])` is only required to succeed when the parsed `pident` is
exactly 100. -/
def countedHit (h : Hit) : Bool :=
  if h.length < 12 then false
  else match (col h 2).asFloat with
  | none => false
  | some pident =>
    match (col h 3).asInt with
    | none => false
    | some _ => if pident = 100 then (col h 4).asInt.isSome else true

/-- Does a raw hit record count toward `perfect_matches`: all three numeric
fields parse, `pident = 100` and `mismatches = 0`. -/
def perfectHit (h : Hit) : Bool :=
  if h.length < 12 then false
  else match (col h 2).asFloat with
  | none => false
  | some pident =>
    match (col h 3).asInt with
    | none => false
    | some _ =>
      if pident = 100 then
        match (col h 4).asInt with
        | none => false
        | some mm => mm = 0
      else false

/-- The amount one raw hit record adds to `raw_non_specificity`: the record
needs 12 columns and parsable `pident` and `length`; the accumulation happens
before `int(parts[4])` is ever evaluated, so an unparsable mismatch field does
not prevent it. Zero when `probe_length = 0` (the guard against division by
zero). -/
def hitContribution (probe_length : ℕ) (h : Hit) : ℚ :=
  if h.length < 12 then 0
  else match (col h 2).asFloat with
  | none => 0
  | some pident =>
    match (col h 3).asInt with
    | none => 0
    | some len =>
      if 0 < probe_length then (pident / 100) * (len : ℚ) / (probe_length : ℚ)
      else 0

/-- The target identifier (`parts[1]`) of a raw hit record. -/
def chromOf (h : Hit) : String := (col h 1).raw

/-- One iteration of the hit loop inside the static worker entry point
`ProbeScorer.static_calculate_probes_batch` (probe_scoring.py lines 162-186).
In that copy the chromosome-set insertion sits inside the `try` block, but it
still precedes the first fallible conversion, so the control flow is the same
as `hitStep`'s. -/
def staticHitStep (probe_length : ℕ) (acc : HitAcc) (hit : Hit) : HitAcc :=
  if hit.length < 12 then acc
  else
    let chroms := insert (col hit 1).raw acc.matched_chromosomes
    match (col hit 2).asFloat with
    | none => { acc with matched_chromosomes := chroms }
    | some pident =>
      match (col hit 3).asInt with
      | none => { acc with matched_chromosomes := chroms }
      | some len =>
        let nident : ℚ := (pident / 100) * (len : ℚ)
        let rns := if 0 < probe_length then
            acc.raw_non_specificity + nident / (probe_length : ℚ)
          else acc.raw_non_specificity
        if pident = 100 then
          match (col hit 4).asInt with
          | none => { acc with raw_non_specificity := rns, matched_chromosomes := chroms }
          | some mm =>
            if mm = 0 then
              ⟨rns, acc.total_hits + 1, acc.perfect_matches + 1, chroms⟩
            else
              ⟨rns, acc.total_hits + 1, acc.perfect_matches, chroms⟩
        else
          ⟨rns, acc.total_hits + 1, acc.perfect_matches, chroms⟩

/-- The per-probe body of `ProbeScorer.static_calculate_probes_batch`
(probe_scoring.py lines 150-208): the re-inlined copy of the scoring logic,
including its own `','.join(sorted(matched_chromosomes)) if
matched_chromosomes else ''` variant of the chromosome join. -/
def staticScoreOne (probes : ProbeDict) (probe_id : String) (hits : List Hit) :
    ScoreRecord :=
  let probe_seq := dictGet probes probe_id
  let probe_length := probe_seq.length
  let acc := hits.foldl (staticHitStep probe_length) initAcc
  let final_score := 100 * (1 / (1 + acc.raw_non_specificity))
  let final_score := if acc.total_hits = 0 then 100 else final_score
  let final_score := if probe_seq = "" then min final_score 30 else final_score
  { probe_id := probe_id
    score := roundTo 2 final_score
    raw_non_specificity := roundTo 4 acc.raw_non_specificity
    perfect_matches := acc.perfect_matches
    total_hits := acc.total_hits
    matched_chromosomes := if acc.matched_chromosomes = ∅ then ""
      else joinSorted acc.matched_chromosomes
    probe_length := probe_length
    in_fasta := dictMem probes probe_id }

/-- `ProbeScorer.static_calculate_probes_batch`: the static worker entry
point, one result record appended per `(probe_id, hits)` pair. -/
def static_calculate_probes_batch (probes : ProbeDict)
    (probe_ids_hits : List (String × List Hit)) : List ScoreRecord :=
  probe_ids_hits.map (fun ph => staticScoreOne probes ph.1 ph.2)

/-- `ProbeScorer.calculate_probes_batch`: the instance-method batch runner,
which calls `calculate_probe_score` per pair. -/
def calculate_probes_batch (probes : ProbeDict)
    (probe_ids_hits : List (String × List Hit)) : List ScoreRecord :=
  probe_ids_hits.map (fun ph => calculate_probe_score probes ph.1 ph.2)

/-- The chunking step of `ProbeScorer.calculate_all_scores` (probe_scoring.py
line 227): `[probe_list[i:i+chunk_size] for i in range(0, total_probes,
chunk_size)]`, i.e. successive slices of `chunk_size` items. A zero chunk
size, on which Python's `range` raises, is mapped to the empty batch list. -/
def chunkList {α : Type} (k : ℕ) (l : List α) : List (List α) :=
  if _hk : k = 0 then []
  else if _hl : l.isEmpty then []
  else l.take k :: chunkList k (l.drop k)
termination_by l.length
decreasing_by
  simp only [List.length_drop]
  have hk1 : 1 ≤ k := Nat.one_le_iff_ne_zero.mpr _hk
  have hpos : 0 < l.length := by
    cases l with
    | nil => simp at _hl
    | cons a t => simp
  omega

/-- The merge-and-rank phase of `ProbeScorer.calculate_all_scores`
(probe_scoring.py lines 236-256): worker batch results are concatenated in
completion order (`arrived` is that order) and the merged list is sorted by
score, descending and stable (`sort(key=..., reverse=True)`). -/
def merge_and_rank (probes : ProbeDict)
    (arrived : List (List (String × List Hit))) : List ScoreRecord :=
  ((arrived.map (static_calculate_probes_batch probes)).flatten).mergeSort
    (fun a b => decide (b.score ≤ a.score))

/-- One entry of `stats['file_stats']` in `CoverageAnalyzer.analyze_coverage`
(coverage_analysis.py lines 65-83): the per-source intersection counts and
the `found_ratio`, 0 for an empty source. -/
structure FileStat where
  file_name : String
  total_probes : ℕ
  found_in_fasta : ℕ
  not_found_in_fasta : ℕ
  found_ratio : ℚ
  deriving DecidableEq

/-- The overall statistics record of `CoverageAnalyzer.analyze_coverage`. -/
structure CoverageStats where
  total_probes_in_fasta : ℕ
  total_probes_in_blast : ℕ
  probes_found_in_fasta : ℕ
  coverage_ratio : ℚ
  file_stats : List FileStat
  deriving DecidableEq

/-- The per-file statistics computed in the body of the loop of
`analyze_coverage`. -/
def mkFileStat (univ : Finset String) (src : String × Finset String) :
    FileStat :=
  let file_probes := src.2
  let found := file_probes ∩ univ
  { file_name := src.1
    total_probes := file_probes.card
    found_in_fasta := found.card
    not_found_in_fasta := file_probes.card - found.card
    found_ratio := if file_probes = ∅ then 0
      else (found.card : ℚ) / (file_probes.card : ℚ) * 100 }

/-- The union `all_blast_probes` accumulated across the sources. -/
def allHitIds (sources : List (String × Finset String)) : Finset String :=
  sources.foldl (fun acc src => acc ∪ src.2) ∅

/-- `CoverageAnalyzer.analyze_coverage` (coverage_analysis.py lines 48-94):
the universe is the id set of `self.probes`, each source contributes one
`FileStat` and its ids to `all_blast_probes`, and the global
`coverage_ratio` divides by the universe size (0 when the universe is
empty). -/
def analyze_coverage (univ : Finset String)
    (sources : List (String × Finset String)) : CoverageStats :=
  let res := sources.foldl
    (fun (acc : List FileStat × Finset String) src =>
      (acc.1 ++ [mkFileStat univ src], acc.2 ∪ src.2)) ([], ∅)
  let found := (res.2 ∩ univ).card
  { total_probes_in_fasta := univ.card
    total_probes_in_blast := res.2.card
    probes_found_in_fasta := found
    coverage_ratio := if univ.card = 0 then 0
      else (found : ℚ) / (univ.card : ℚ) * 100
    file_stats := res.1 }

/-- Does the no-underscore token `b` end in `-` followed by a nonempty digit
run, with at least one character before the dash? This is exactly when the
backtracking engine can match `[^_]+-\d+` against all of `b` with the `\d+`
reaching its end: the digits of `\d+` must run to the end of `b` (the next
pattern character is `_`), so they are the maximal trailing digit run, the
character before that run must be the literal dash, and `[^_]+` needs at
least one character before it. -/
def dashDigitsSuffix (b : List Char) : Bool :=
  let ds := b.reverse.takeWhile Char.isDigit
  if ds.isEmpty then false
  else match b.reverse.drop ds.length with
    | [] => false
    | c :: rest => c == '-' && !rest.isEmpty

/-- Python `re.match(r'^([^_]+_[^_]+-\d+)_', probe_id)` of
`ProbeMapper.map_probes_to_pav` (probe_mapping.py line 58): the captured
group, or `none` when the pattern does not match. The pattern is anchored:
`[^_]+` before the literal `_` must be exactly the maximal nonempty run
before the first underscore, the second `[^_]+-\d+` must consume exactly the
run between the first and second underscores, and `\d` is modelled as the
decimal digits 0-9. -/
def regexCapture (probe_id : String) : Option String :=
  let cs := probe_id.data
  let a := cs.takeWhile (fun c => c != '_')
  if a.isEmpty then none
  else match cs.drop a.length with
    | '_' :: rest1 =>
      let b := rest1.takeWhile (fun c => c != '_')
      if b.isEmpty then none
      else match rest1.drop b.length with
        | '_' :: _ =>
          if dashDigitsSuffix b then some (String.mk (a ++ '_' :: b))
          else none
        | _ => none
    | _ => none

/-- Append `v` to the `defaultdict(list)` entry at key `k`: extend the
existing group, or create a new group at the end (insertion order). -/
def addToGroup (m : List (String × List String)) (k v : String) :
    List (String × List String) :=
  match m with
  | [] => [(k, [v])]
  | e :: rest =>
    if e.1 = k then (e.1, e.2 ++ [v]) :: rest else e :: addToGroup rest k v

/-- The mapping state: `self.mapping_results` (a `defaultdict(list)` keyed by
PAV id) and the `unmapped_probes` list. -/
structure MapResult where
  mapping : List (String × List String)
  unmapped : List String
  deriving DecidableEq

/-- One iteration of the probe loop of `ProbeMapper.map_probes_to_pav`
(probe_mapping.py lines 55-76): on a regex match the probe is appended to
the captured PAV id's group with no membership check against
`self.pav_sequences`; only when the regex fails are the known PAV ids
scanned for the first one that is a literal prefix of the probe id
(`probe_id.startswith(key)`); failing both, the probe goes to the unmapped
list. -/
def mapStep (pav_keys : List String) (st : MapResult) (probe_id : String) :
    MapResult :=
  match regexCapture probe_id with
  | some pav_id => { st with mapping := addToGroup st.mapping pav_id probe_id }
  | none =>
    match pav_keys.find? (fun key => key.isPrefixOf probe_id) with
    | some key => { st with mapping := addToGroup st.mapping key probe_id }
    | none => { st with unmapped := st.unmapped ++ [probe_id] }

/-- `ProbeMapper.map_probes_to_pav` over a probe-id list and the known PAV
ids in their deterministic dictionary iteration order. -/
def map_probes_to_pav (pav_keys : List String) (probe_ids : List String) :
    MapResult :=
  probe_ids.foldl (mapStep pav_keys) ⟨[], []⟩

/-- The region id a probe resolves to, if any: the captured candidate when
the regex matches (unconditionally), otherwise the first known PAV id that
is a prefix of the probe id. -/
def resolveProbe (pav_keys : List String) (probe_id : String) : Option String :=
  match regexCapture probe_id with
  | some pav_id => some pav_id
  | none => pav_keys.find? (fun key => key.isPrefixOf probe_id)

/-- The probes grouped under key `k` in a mapping. -/
def groupMembers (m : List (String × List String)) (k : String) : List String :=
  (m.filter (fun e => e.1 == k)).flatMap (fun e => e.2)

/-- All probes appearing in some group of a mapping. -/
def groupedProbes (m : List (String × List String)) : List String :=
  m.flatMap (fun e => e.2)

/-- Python dict assignment `d[k] = v`: overwrite in place, or append a new
entry (insertion order). -/
def dictInsert (d : List (String × String)) (k v : String) :
    List (String × String) :=
  if (d.find? (fun e => e.1 == k)).isSome then
    d.map (fun e => if e.1 == k then (e.1, v) else e)
  else d ++ [(k, v)]

/-- One iteration of the best-probe scan of
`ProbeScorer.extract_high_quality_probes` (probe_scoring.py lines 339-341):
keep the first record that is in the universe, replacing it only on a
strictly greater score. -/
def pickBestStep (best : Option ScoreRecord) (r : ScoreRecord) :
    Option ScoreRecord :=
  if r.in_fasta &&
      (match best with
       | none => true
       | some b => decide (b.score < r.score)) then
    some r
  else best

/-- The best-probe scan over the whole score list. -/
def pickBest (scores : List ScoreRecord) : Option ScoreRecord :=
  scores.foldl pickBestStep none

/-- `ProbeScorer.extract_high_quality_probes` (probe_scoring.py lines
319-349), up to the returned probe dictionary: the threshold defaults to 60.0
(`threshold or 60.0`, so an explicit 0 also falls back to 60); probes whose
record clears the threshold and is `in_fasta` are selected; when none
qualifies but some record is `in_fasta`, the single best-scoring `in_fasta`
probe is returned instead. Python's `self.probes[probe_id]` lookup is
modelled by `dictGet` (the two agree whenever `in_fasta` records came from
scoring against the same `probes`). -/
def extract_high_quality_probes (probes : ProbeDict)
    (scores : List ScoreRecord) (threshold : Option ℚ) :
    List (String × String) :=
  let score_threshold : ℚ := match threshold with
    | none => 60
    | some t => if t = 0 then 60 else t
  let high_quality := scores.foldl
    (fun d r =>
      if score_threshold ≤ r.score ∧ r.in_fasta = true then
        dictInsert d r.probe_id (dictGet probes r.probe_id)
      else d) []
  if high_quality = [] ∧ scores ≠ [] ∧ scores.any (fun r => r.in_fasta) then
    match pickBest scores with
    | some best => dictInsert high_quality best.probe_id (dictGet probes best.probe_id)
    | none => high_quality
  else high_quality

/-- Numeric sanity of one raw hit record, as the invariant claim assumes it:
whenever the percent-identity column parses it lies in [0, 100], and whenever
the alignment-length column parses it is nonnegative. -/
def hitNumsOk (h : Hit) : Prop :=
  (∀ p : ℚ, (col h 2).asFloat = some p → 0 ≤ p ∧ p ≤ 100) ∧
  (∀ n : ℤ, (col h 3).asInt = some n → 0 ≤ n)

/-- An ignored trailing column. -/
def fillerTok : Tok := ⟨"x", none, none⟩

/-- Probe dictionary with one probe of length 10, for concrete scenarios. -/
def probesC2 : ProbeDict := [("P", "AAAAAAAAAA")]

/-- A 12-column record whose percent-identity field does not parse. -/
def hitBad1 : Hit :=
  [⟨"P", none, none⟩, ⟨"c1", none, none⟩, ⟨"abc", none, none⟩,
   ⟨"10", some 10, some 10⟩, ⟨"0", some 0, some 0⟩] ++ List.replicate 7 fillerTok

/-- A 12-column record with `pident = 50` whose mismatch field does not
parse. -/
def hitBad2 : Hit :=
  [⟨"P", none, none⟩, ⟨"c1", none, none⟩, ⟨"50.0", some 50, none⟩,
   ⟨"10", some 10, some 10⟩, ⟨"xx", none, none⟩] ++ List.replicate 7 fillerTok

/-- A 12-column record with `pident = 100` whose mismatch field does not
parse. -/
def hitBad3 : Hit :=
  [⟨"P", none, none⟩, ⟨"c1", none, none⟩, ⟨"100.0", some 100, none⟩,
   ⟨"10", some 10, some 10⟩, ⟨"yy", none, none⟩] ++ List.replicate 7 fillerTok

/-- The probe dictionary of the worked scenario: probe `P1` of length 20. -/
def probesC3 : ProbeDict := [("P1", "AAAAAAAAAAAAAAAAAAAA")]

/-- The scenario's single well-formed 12-column hit:
`pident = 100`, alignment length 20, mismatches 0. -/
def hitC3 : Hit :=
  [⟨"P1", none, none⟩, ⟨"chr1", none, none⟩, ⟨"100.00", some 100, none⟩,
   ⟨"20", some 20, some 20⟩, ⟨"0", some 0, some 0⟩, ⟨"1", some 1, some 1⟩,
   ⟨"20", some 20, some 20⟩, ⟨"5", some 5, some 5⟩, ⟨"24", some 24, some 24⟩,
   ⟨"1e-5", some (1/100000), none⟩, ⟨"37.4", some (187/5), none⟩,
   ⟨"chr1", none, none⟩]

/-- C3. Scoring formula on the worked scenario: for probe length 20 and one
retained hit with `pident = 100`, alignment length 20 and mismatches 0, the
Scoring Engine returns `nident = 20`, `raw_non_specificity = 1.0`,
`raw_specificity = 0.5`, final score 50.0, `perfect_match_count = 1`,
`total_hit_count = 1`. -/
theorem c3_worked_scenario :
    calculate_probe_score probesC3 "P1" [hitC3] =
      ⟨"P1", 50, 1, 1, 1, "chr1", 20, true⟩ ∧
    ((100 : ℚ) / 100) * 20 = 20 ∧
    raw_specificity_score 1 = 1 / 2 := by
  refine ⟨?_, by norm_num, by norm_num [raw_specificity_score]⟩
  have hseq : dictGet probesC3 "P1" = "AAAAAAAAAAAAAAAAAAAA" := rfl
  have hlen : ("AAAAAAAAAAAAAAAAAAAA" : String).length = 20 := rfl
  have hfold : List.foldl (hitStep 20) initAcc [hitC3] = ⟨1, 1, 1, {"chr1"}⟩ := by
    simp only [List.foldl, hitC3, hitStep, initAcc, col, List.getD, List.get?]
    norm_num
  have hmem : dictMem probesC3 "P1" = true := rfl
  have hne : (("AAAAAAAAAAAAAAAAAAAA" : String) = "") = False :=
    eq_false (by decide)
  simp only [calculate_probe_score, hseq, hlen, hfold, hmem]
  norm_num [roundTo, round_eq, joinSorted, raw_specificity_score, hne,
    Finset.sort_singleton, String.intercalate]
  rfl

theorem hitStep_total (L : ℕ) (acc : HitAcc) (h : Hit) :
    (hitStep L acc h).total_hits =
      acc.total_hits + (if countedHit h then 1 else 0) := by
  unfold hitStep countedHit
  by_cases hl : h.length < 12
  · simp [hl]
  · simp only [if_neg hl]
    rcases hf : (col h 2).asFloat with _ | pident
    · simp
    · rcases hi : (col h 3).asInt with _ | len
      · simp
      · by_cases hp : pident = 100
        · rcases hm : (col h 4).asInt with _ | mm
          · simp [hp, hm]
          · by_cases hm0 : mm = 0 <;> simp [hp, hm, hm0]
        · simp [hp]

theorem hitStep_perfect (L : ℕ) (acc : HitAcc) (h : Hit) :
    (hitStep L acc h).perfect_matches =
      acc.perfect_matches + (if perfectHit h then 1 else 0) := by
  unfold hitStep perfectHit
  by_cases hl : h.length < 12
  · simp [hl]
  · simp only [if_neg hl]
    rcases hf : (col h 2).asFloat with _ | pident
    · simp
    · rcases hi : (col h 3).asInt with _ | len
      · simp
      · by_cases hp : pident = 100
        · rcases hm : (col h 4).asInt with _ | mm
          · simp [hp, hm]
          · by_cases hm0 : mm = 0 <;> simp [hp, hm, hm0]
        · simp [hp]

theorem hitStep_raw (L : ℕ) (acc : HitAcc) (h : Hit) :
    (hitStep L acc h).raw_non_specificity =
      acc.raw_non_specificity + hitContribution L h := by
  unfold hitStep hitContribution
  by_cases hl : h.length < 12
  · simp [hl]
  · simp only [if_neg hl]
    rcases hf : (col h 2).asFloat with _ | pident
    · simp
    · rcases hi : (col h 3).asInt with _ | len
      · simp
      · by_cases hL : 0 < L
        · by_cases hp : pident = 100
          · rcases hm : (col h 4).asInt with _ | mm
            · simp [hp, hm, hL, div_eq_mul_inv, mul_assoc]
            · by_cases hm0 : mm = 0 <;>
                simp [hp, hm, hm0, hL, div_eq_mul_inv, mul_assoc]
          · simp [hp, hL, div_eq_mul_inv, mul_assoc]
        · by_cases hp : pident = 100
          · rcases hm : (col h 4).asInt with _ | mm
            · simp [hp, hm, hL]
            · by_cases hm0 : mm = 0 <;> simp [hp, hm, hm0, hL]
          · simp [hp, hL]

theorem hitStep_chroms (L : ℕ) (acc : HitAcc) (h : Hit) :
    (hitStep L acc h).matched_chromosomes =
      if h.length < 12 then acc.matched_chromosomes
      else insert (chromOf h) acc.matched_chromosomes := by
  unfold hitStep chromOf
  by_cases hl : h.length < 12
  · simp [hl]
  · simp only [if_neg hl]
    rcases hf : (col h 2).asFloat with _ | pident
    · simp
    · rcases hi : (col h 3).asInt with _ | len
      · simp
      · by_cases hp : pident = 100
        · rcases hm : (col h 4).asInt with _ | mm
          · simp [hp, hm]
          · by_cases hm0 : mm = 0 <;> simp [hp, hm, hm0]
        · simp [hp]

theorem foldl_hitStep_total (L : ℕ) (hits : List Hit) (acc : HitAcc) :
    (hits.foldl (hitStep L) acc).total_hits =
      acc.total_hits + (hits.filter countedHit).length := by
  induction hits generalizing acc with
  | nil => simp
  | cons h t ih =>
    by_cases hc : countedHit h <;>
      simp [List.foldl_cons, ih, hitStep_total, hc, List.filter_cons,
        Nat.add_assoc, Nat.add_comm 1]

theorem foldl_hitStep_perfect (L : ℕ) (hits : List Hit) (acc : HitAcc) :
    (hits.foldl (hitStep L) acc).perfect_matches =
      acc.perfect_matches + (hits.filter perfectHit).length := by
  induction hits generalizing acc with
  | nil => simp
  | cons h t ih =>
    by_cases hc : perfectHit h <;>
      simp [List.foldl_cons, ih, hitStep_perfect, hc, List.filter_cons,
        Nat.add_assoc, Nat.add_comm 1]

theorem foldl_hitStep_raw (L : ℕ) (hits : List Hit) (acc : HitAcc) :
    (hits.foldl (hitStep L) acc).raw_non_specificity =
      acc.raw_non_specificity + (hits.map (hitContribution L)).sum := by
  induction hits generalizing acc with
  | nil => simp
  | cons h t ih =>
    simp [List.foldl_cons, ih, hitStep_raw, add_assoc]

theorem foldl_hitStep_chroms (L : ℕ) (hits : List Hit) (acc : HitAcc) :
    (hits.foldl (hitStep L) acc).matched_chromosomes =
      acc.matched_chromosomes ∪
        ((hits.filter (fun h => decide (¬ h.length < 12))).map chromOf).toFinset := by
  induction hits generalizing acc with
  | nil => simp
  | cons h t ih =>
    by_cases hl : h.length < 12
    · simp [List.foldl_cons, ih, hitStep_chroms, hl, List.filter_cons]
    · simp only [List.foldl_cons, ih, hitStep_chroms, if_neg hl, List.filter_cons]
      simp [hl, Finset.insert_union, Finset.union_insert]

theorem roundTo_mono (d : ℕ) {x y : ℚ} (hxy : x ≤ y) :
    roundTo d x ≤ roundTo d y := by
  unfold roundTo
  have h10 : (0:ℚ) < 10 ^ d := by positivity
  have hr : round (x * 10 ^ d) ≤ round (y * 10 ^ d) := by
    rw [round_eq, round_eq]
    exact Int.floor_le_floor (by nlinarith)
  gcongr

theorem roundTo_natCast (d n : ℕ) : roundTo d ((n : ℚ)) = n := by
  unfold roundTo
  rw [show ((n : ℚ) * 10 ^ d) = (((n * 10 ^ d : ℕ) : ℤ) : ℚ) by push_cast; ring,
    round_intCast]
  have h10 : ((10:ℚ) ^ d) ≠ 0 := by positivity
  push_cast
  field_simp

theorem score_total_hits (probes : ProbeDict) (probe_id : String)
    (hits : List Hit) :
    (calculate_probe_score probes probe_id hits).total_hits =
      (hits.filter countedHit).length := by
  simp [calculate_probe_score, foldl_hitStep_total, initAcc]

theorem score_perfect_matches (probes : ProbeDict) (probe_id : String)
    (hits : List Hit) :
    (calculate_probe_score probes probe_id hits).perfect_matches =
      (hits.filter perfectHit).length := by
  simp [calculate_probe_score, foldl_hitStep_perfect, initAcc]

theorem score_raw_non_specificity (probes : ProbeDict) (probe_id : String)
    (hits : List Hit) :
    (calculate_probe_score probes probe_id hits).raw_non_specificity =
      roundTo 4 ((hits.map (hitContribution (dictGet probes probe_id).length)).sum) := by
  simp [calculate_probe_score, foldl_hitStep_raw, initAcc]

theorem score_matched_chromosomes (probes : ProbeDict) (probe_id : String)
    (hits : List Hit) :
    (calculate_probe_score probes probe_id hits).matched_chromosomes =
      joinSorted ((hits.filter (fun h => decide (¬ h.length < 12))).map chromOf).toFinset := by
  simp [calculate_probe_score, foldl_hitStep_chroms, initAcc]

/-- C2 (amended). Hit accounting inside the Scoring Engine: a record with
fewer than 12 columns contributes nothing anywhere; `total_hit_count` counts
exactly the records with 12 columns, parsable pident and alignment length,
and — only when pident = 100 — a parsable mismatch field;
`perfect_match_count` counts those with all three fields parsed, pident = 100
and 0 mismatches; `raw_non_specificity` sums the contributions of every
record whose pident and length parse (even when its mismatch field does
not); and the matched-target set collects `parts[1]` of every 12-column
record, parsable or not. -/
theorem c2_malformed_hit_accounting (probes : ProbeDict) (probe_id : String)
    (hits : List Hit) :
    (calculate_probe_score probes probe_id hits).total_hits =
      (hits.filter countedHit).length ∧
    (calculate_probe_score probes probe_id hits).perfect_matches =
      (hits.filter perfectHit).length ∧
    (calculate_probe_score probes probe_id hits).raw_non_specificity =
      roundTo 4 ((hits.map (hitContribution (dictGet probes probe_id).length)).sum) ∧
    (calculate_probe_score probes probe_id hits).matched_chromosomes =
      joinSorted ((hits.filter (fun h => decide (¬ h.length < 12))).map chromOf).toFinset :=
  ⟨score_total_hits probes probe_id hits,
   score_perfect_matches probes probe_id hits,
   score_raw_non_specificity probes probe_id hits,
   score_matched_chromosomes probes probe_id hits⟩

/-- C2 is false as stated: on three records that are all malformed in the
claim's sense (unparsable pident; pident 50 with unparsable mismatches;
pident 100 with unparsable mismatches) the engine still counts one of them
in `total_hit_count`, accumulates 1.5 of `raw_non_specificity`, and records
the target id of all three — the claim demands 0, 0 and the empty set. -/
theorem c2_counterexample :
    (calculate_probe_score probesC2 "P" [hitBad1, hitBad2, hitBad3]).total_hits = 1 ∧
    (calculate_probe_score probesC2 "P" [hitBad1, hitBad2, hitBad3]).raw_non_specificity = 3 / 2 ∧
    (calculate_probe_score probesC2 "P" [hitBad1, hitBad2, hitBad3]).matched_chromosomes = "c1" ∧
    "c1" ≠ "" := by
  refine ⟨?_, ?_, ?_, by decide⟩
  · rw [score_total_hits]
    decide
  · rw [score_raw_non_specificity]
    have hlen : (dictGet probesC2 "P").length = 10 := rfl
    rw [hlen]
    have h1 : hitContribution 10 hitBad1 = 0 := by
      simp [hitContribution, hitBad1, fillerTok, col]
    have h2 : hitContribution 10 hitBad2 = 1 / 2 := by
      simp [hitContribution, hitBad2, fillerTok, col]
      norm_num
    have h3 : hitContribution 10 hitBad3 = 1 := by
      simp [hitContribution, hitBad3, fillerTok, col]
    simp only [List.map_cons, List.map_nil, List.sum_cons, List.sum_nil, h1, h2, h3]
    norm_num [roundTo, round_eq]
  · rw [score_matched_chromosomes]
    have hfil : (List.filter (fun h => decide (¬ h.length < 12))
        [hitBad1, hitBad2, hitBad3]).map chromOf = ["c1", "c1", "c1"] := by decide
    rw [hfil]
    have hset : (["c1", "c1", "c1"] : List String).toFinset = {"c1"} := by simp
    rw [hset, joinSorted, Finset.sort_singleton]
    rfl

/-- C4 counterexample: a probe that is present in the sequence universe with
an empty residue string and has zero hits scores 30, not the claimed 100 —
the cap keys on the emptiness of the resolved sequence, not on membership. -/
theorem c4_counterexample :
    (calculate_probe_score [("P", "")] "P" []).total_hits = 0 ∧
    (calculate_probe_score [("P", "")] "P" []).in_fasta = true ∧
    (calculate_probe_score [("P", "")] "P" []).score = 30 ∧
    (30 : ℚ) ≠ 100 := by
  refine ⟨by decide, by decide, ?_, by norm_num⟩
  have hseq : dictGet [("P", "")] "P" = "" := rfl
  simp [calculate_probe_score, hseq, initAcc]
  norm_num [roundTo, round_eq]

theorem dictGet_of_not_mem (d : ProbeDict) (k : String)
    (h : dictMem d k = false) : dictGet d k = "" := by
  unfold dictMem at h
  unfold dictGet
  rcases hf : dictFind d k with _ | v
  · rfl
  · rw [hf] at h
    simp at h

theorem hitContribution_zero_len (h : Hit) : hitContribution 0 h = 0 := by
  unfold hitContribution
  by_cases hl : h.length < 12
  · simp [hl]
  · simp only [if_neg hl]
    rcases (col h 2).asFloat with _ | p
    · rfl
    · rcases (col h 3).asInt with _ | n
      · rfl
      · simp

theorem hitContribution_nonneg (L : ℕ) (h : Hit)
    (hok : ¬ h.length < 12 → hitNumsOk h) :
    0 ≤ hitContribution L h := by
  unfold hitContribution
  by_cases hl : h.length < 12
  · simp [hl]
  · simp only [if_neg hl]
    rcases hf : (col h 2).asFloat with _ | pident
    · simp
    · rcases hi : (col h 3).asInt with _ | len
      · simp
      · obtain ⟨hp0, _⟩ := (hok hl).1 pident hf
        have hlen : (0:ℚ) ≤ (len : ℚ) := by exact_mod_cast (hok hl).2 len hi
        by_cases hL : 0 < L
        · simp only [hL, if_true]
          have hL0 : (0:ℚ) ≤ (L : ℚ) := by positivity
          exact div_nonneg (mul_nonneg (div_nonneg hp0 (by norm_num)) hlen) hL0
        · simp [hL]

/-- C4 (amended). Score overrides: a probe whose resolved sequence is
nonempty scores exactly 100.0 when it has no counted hits; a probe whose
resolved sequence is empty — in particular every probe absent from the
sequence universe — is scored with `probe_length` 0, its counted hits still
populate `total_hit_count` while `raw_non_specificity` stays 0, and the
final score is capped at 30.0 after the zero-hit override, so it never
exceeds 30. -/
theorem c4_score_overrides (probes : ProbeDict) (probe_id : String)
    (hits : List Hit) :
    (dictGet probes probe_id ≠ "" →
      (calculate_probe_score probes probe_id hits).total_hits = 0 →
      (calculate_probe_score probes probe_id hits).score = 100) ∧
    (dictGet probes probe_id = "" →
      (calculate_probe_score probes probe_id hits).probe_length = 0 ∧
      (calculate_probe_score probes probe_id hits).score ≤ 30 ∧
      (calculate_probe_score probes probe_id hits).raw_non_specificity = 0 ∧
      (calculate_probe_score probes probe_id hits).total_hits =
        (hits.filter countedHit).length) ∧
    (dictMem probes probe_id = false → dictGet probes probe_id = "") := by
  refine ⟨?_, ?_, dictGet_of_not_mem probes probe_id⟩
  · intro hseq htot
    have htot' : (hits.foldl (hitStep (dictGet probes probe_id).length)
        initAcc).total_hits = 0 := by
      simpa [calculate_probe_score] using htot
    simp only [calculate_probe_score]
    rw [if_neg hseq] -- hmm order of ifs
    rw [if_pos htot']
    simpa using roundTo_natCast 2 100
  · intro hseq
    have hlen : (dictGet probes probe_id).length = 0 := by rw [hseq]; rfl
    refine ⟨?_, ?_, ?_, score_total_hits probes probe_id hits⟩
    · simp [calculate_probe_score, hseq]
    · have h30 : (calculate_probe_score probes probe_id hits).score =
          roundTo 2 (min (if (hits.foldl (hitStep (dictGet probes probe_id).length)
              initAcc).total_hits = 0 then (100:ℚ)
            else 100 * raw_specificity_score
              ((hits.foldl (hitStep (dictGet probes probe_id).length)
                initAcc).raw_non_specificity)) 30) := by
        simp [calculate_probe_score, hseq]
      rw [h30]
      exact le_trans (roundTo_mono 2 (min_le_right _ _))
        (by simpa using (roundTo_natCast 2 30).le)
    · rw [score_raw_non_specificity]
      have hz : (hits.map (hitContribution (dictGet probes probe_id).length)).sum = 0 := by
        apply List.sum_eq_zero
        intro x hx
        obtain ⟨h, _, rfl⟩ := List.mem_map.mp hx
        rw [hlen]
        exact hitContribution_zero_len h
      rw [hz]
      simpa using roundTo_natCast 4 0

/-- C5. Score invariant and monotonicity: whenever every hit's parsable
percent identity lies in [0, 100] and its parsable alignment length is
nonnegative, the returned score lies within [0, 100]; and the pre-rounding
score `100 * raw_specificity_score r` is non-increasing in the accumulated
non-specificity `r ≥ 0`. -/
theorem c5_score_invariant (probes : ProbeDict) (probe_id : String)
    (hits : List Hit) (hok : ∀ h ∈ hits, ¬ h.length < 12 → hitNumsOk h) :
    0 ≤ (calculate_probe_score probes probe_id hits).score ∧
    (calculate_probe_score probes probe_id hits).score ≤ 100 ∧
    (∀ r1 r2 : ℚ, 0 ≤ r1 → r1 ≤ r2 →
      100 * raw_specificity_score r2 ≤ 100 * raw_specificity_score r1) := by
  have hmono : ∀ r1 r2 : ℚ, 0 ≤ r1 → r1 ≤ r2 →
      100 * raw_specificity_score r2 ≤ 100 * raw_specificity_score r1 := by
    intro r1 r2 h0 h12
    unfold raw_specificity_score
    have h1 : (0:ℚ) < 1 + r1 := by linarith
    have hle : 1 / (1 + r2) ≤ 1 / (1 + r1) :=
      one_div_le_one_div_of_le h1 (by linarith)
    nlinarith
  have hraw : (hits.foldl (hitStep (dictGet probes probe_id).length)
      initAcc).raw_non_specificity =
      (hits.map (hitContribution (dictGet probes probe_id).length)).sum := by
    simp [foldl_hitStep_raw, initAcc]
  have hsum : 0 ≤ (hits.map (hitContribution (dictGet probes probe_id).length)).sum := by
    apply List.sum_nonneg
    intro x hx
    obtain ⟨h, hh, rfl⟩ := List.mem_map.mp hx
    exact hitContribution_nonneg _ h (hok h hh)
  have h1S : (0:ℚ) < 1 +
      (hits.map (hitContribution (dictGet probes probe_id).length)).sum := by
    linarith
  have hfs0 : 0 ≤ 100 * raw_specificity_score
      ((hits.map (hitContribution (dictGet probes probe_id).length)).sum) := by
    unfold raw_specificity_score
    positivity
  have hfs1 : 100 * raw_specificity_score
      ((hits.map (hitContribution (dictGet probes probe_id).length)).sum) ≤ 100 := by
    unfold raw_specificity_score
    have hd : 1 / (1 + (hits.map (hitContribution (dictGet probes probe_id).length)).sum) ≤ 1 := by
      rw [div_le_one h1S]
      linarith
    nlinarith
  have key : ∀ x : ℚ, 0 ≤ x → x ≤ 100 → 0 ≤ roundTo 2 x ∧ roundTo 2 x ≤ 100 := by
    intro x h0 h100
    have hz : roundTo 2 (0:ℚ) = 0 := by simpa using roundTo_natCast 2 0
    have hh : roundTo 2 (100:ℚ) = 100 := by simpa using roundTo_natCast 2 100
    constructor
    · linarith [roundTo_mono 2 h0]
    · linarith [roundTo_mono 2 h100]
  by_cases ht : (hits.foldl (hitStep (dictGet probes probe_id).length)
      initAcc).total_hits = 0 <;>
    by_cases hsq : dictGet probes probe_id = ""
  · have hscore : (calculate_probe_score probes probe_id hits).score =
        roundTo 2 (min (100:ℚ) 30) := by
      simp only [calculate_probe_score]
      rw [if_pos hsq, if_pos ht]
    rw [hscore]
    have hb := key (min (100:ℚ) 30) (by norm_num) (by norm_num)
    exact ⟨hb.1, hb.2, hmono⟩
  · have hscore : (calculate_probe_score probes probe_id hits).score =
        roundTo 2 (100:ℚ) := by
      simp only [calculate_probe_score]
      rw [if_neg hsq, if_pos ht]
    rw [hscore]
    have hb := key (100:ℚ) (by norm_num) (by norm_num)
    exact ⟨hb.1, hb.2, hmono⟩
  · have hscore : (calculate_probe_score probes probe_id hits).score =
        roundTo 2 (min (100 * raw_specificity_score
          ((hits.map (hitContribution (dictGet probes probe_id).length)).sum)) 30) := by
      simp only [calculate_probe_score]
      rw [if_pos hsq, if_neg ht, hraw]
    rw [hscore]
    have hb := key (min (100 * raw_specificity_score
        ((hits.map (hitContribution (dictGet probes probe_id).length)).sum)) 30)
      (le_min hfs0 (by norm_num)) (le_trans (min_le_right _ _) (by norm_num))
    exact ⟨hb.1, hb.2, hmono⟩
  · have hscore : (calculate_probe_score probes probe_id hits).score =
        roundTo 2 (100 * raw_specificity_score
          ((hits.map (hitContribution (dictGet probes probe_id).length)).sum)) := by
      simp only [calculate_probe_score]
      rw [if_neg hsq, if_neg ht, hraw]
    rw [hscore]
    have hb := key (100 * raw_specificity_score
        ((hits.map (hitContribution (dictGet probes probe_id).length)).sum)) hfs0 hfs1
    exact ⟨hb.1, hb.2, hmono⟩

/-- Witness for C5 at a concrete input: the empty probe dictionary, probe
`P`, and the empty hit list. -/
theorem c5_score_invariant_witness :
    0 ≤ (calculate_probe_score [] "P" []).score ∧
    (calculate_probe_score [] "P" []).score ≤ 100 ∧
    (∀ r1 r2 : ℚ, 0 ≤ r1 → r1 ≤ r2 →
      100 * raw_specificity_score r2 ≤ 100 * raw_specificity_score r1) :=
  c5_score_invariant [] "P" [] (by simp)

theorem staticHitStep_eq_hitStep : @staticHitStep = @hitStep := rfl

theorem joinSorted_empty : joinSorted (∅ : Finset String) = "" := by
  rw [joinSorted, Finset.sort_empty]
  rfl

theorem staticScoreOne_eq (probes : ProbeDict) (probe_id : String)
    (hits : List Hit) :
    staticScoreOne probes probe_id hits =
      calculate_probe_score probes probe_id hits := by
  unfold staticScoreOne calculate_probe_score
  rw [staticHitStep_eq_hitStep]
  by_cases hc : (hits.foldl (hitStep (dictGet probes probe_id).length)
      initAcc).matched_chromosomes = ∅
  · simp [hc, joinSorted_empty, raw_specificity_score]
  · simp [hc, raw_specificity_score]

/-- C9. The two scoring implementations agree: the static worker entry point
`static_calculate_probes_batch` returns exactly the record list obtained by
applying the instance method `calculate_probe_score` to each
`(probe_id, hits)` pair, in order. -/
theorem c9_static_batch_refines (probes : ProbeDict)
    (probe_ids_hits : List (String × List Hit)) :
    static_calculate_probes_batch probes probe_ids_hits =
      calculate_probes_batch probes probe_ids_hits := by
  unfold static_calculate_probes_batch calculate_probes_batch
  simp [staticScoreOne_eq]

theorem foldl_union_acc (sources : List (String × Finset String))
    (s : Finset String) :
    sources.foldl (fun acc src => acc ∪ src.2) s = s ∪ allHitIds sources := by
  induction sources generalizing s with
  | nil => simp [allHitIds]
  | cons x t ih =>
    rw [List.foldl_cons, ih]
    have hR : allHitIds (x :: t) = x.2 ∪ allHitIds t := by
      rw [allHitIds, List.foldl_cons, ih]
      simp
    rw [hR, Finset.union_assoc]

theorem allHitIds_cons (x : String × Finset String)
    (t : List (String × Finset String)) :
    allHitIds (x :: t) = x.2 ∪ allHitIds t := by
  rw [allHitIds, List.foldl_cons]
  rw [show ((∅ : Finset String) ∪ x.2) = x.2 by simp]
  exact foldl_union_acc t x.2

theorem coverage_fold_spec (univ : Finset String)
    (sources : List (String × Finset String)) (fs : List FileStat)
    (s : Finset String) :
    sources.foldl (fun (acc : List FileStat × Finset String) src =>
      (acc.1 ++ [mkFileStat univ src], acc.2 ∪ src.2)) (fs, s) =
    (fs ++ sources.map (mkFileStat univ), s ∪ allHitIds sources) := by
  induction sources generalizing fs s with
  | nil => simp [allHitIds]
  | cons x t ih =>
    rw [List.foldl_cons, ih, allHitIds_cons]
    simp [Finset.union_assoc]

theorem analyze_coverage_ratio (univ : Finset String)
    (sources : List (String × Finset String)) :
    (analyze_coverage univ sources).coverage_ratio =
      ((allHitIds sources ∩ univ).card : ℚ) / (univ.card : ℚ) * 100 := by
  simp only [analyze_coverage, coverage_fold_spec]
  by_cases hu : univ.card = 0
  · simp [hu]
  · simp [hu]

/-- C6 (amended). Coverage Aggregator: each source's `found_ratio` is
`|source ∩ universe| / |source| * 100` (0 for an empty source), the stats
list is exactly one entry per source, the global `coverage_ratio` is
`|union ∩ universe| / |universe| * 100`, it is 0 whenever the universe is
empty, and it is 100 whenever the union of the hit-id sets equals a
nonempty universe. -/
theorem c6_coverage_ratios (univ : Finset String)
    (sources : List (String × Finset String)) :
    (analyze_coverage univ sources).file_stats =
      sources.map (mkFileStat univ) ∧
    (∀ src : String × Finset String,
      (mkFileStat univ src).found_ratio =
        ((src.2 ∩ univ).card : ℚ) / (src.2.card : ℚ) * 100 ∧
      (src.2 = ∅ → (mkFileStat univ src).found_ratio = 0)) ∧
    (analyze_coverage univ sources).coverage_ratio =
      ((allHitIds sources ∩ univ).card : ℚ) / (univ.card : ℚ) * 100 ∧
    (univ = ∅ → (analyze_coverage univ sources).coverage_ratio = 0) ∧
    (allHitIds sources = univ → univ.Nonempty →
      (analyze_coverage univ sources).coverage_ratio = 100) := by
  refine ⟨?_, ?_, analyze_coverage_ratio univ sources, ?_, ?_⟩
  · simp [analyze_coverage, coverage_fold_spec]
  · intro src
    constructor
    · unfold mkFileStat
      by_cases hs : src.2 = ∅
      · simp [hs]
      · simp [hs]
    · intro hs
      unfold mkFileStat
      simp [hs]
  · intro hu
    rw [analyze_coverage_ratio]
    simp [hu]
  · intro hall hne
    rw [analyze_coverage_ratio, hall, Finset.inter_self]
    have hcard : (univ.card : ℚ) ≠ 0 := by
      exact_mod_cast Finset.card_ne_zero_of_mem hne.choose_spec
    field_simp

/-- C6 is false as stated at the empty universe: with one source carrying
no ids, the union of hit-id sets equals the (empty) universe exactly, yet
the coverage ratio is 0, not the claimed 100. -/
theorem c6_counterexample :
    allHitIds [("blast_1.txt", (∅ : Finset String))] = (∅ : Finset String) ∧
    (analyze_coverage (∅ : Finset String)
      [("blast_1.txt", (∅ : Finset String))]).coverage_ratio = 0 ∧
    (analyze_coverage (∅ : Finset String)
      [("blast_1.txt", (∅ : Finset String))]).coverage_ratio ≠ 100 := by
  refine ⟨by simp [allHitIds], ?_, ?_⟩
  · rw [analyze_coverage_ratio]
    simp
  · rw [analyze_coverage_ratio]
    simp

theorem groupMembers_nil (k : String) : groupMembers [] k = [] := rfl

theorem groupMembers_cons (e : String × List String)
    (rest : List (String × List String)) (k : String) :
    groupMembers (e :: rest) k =
      if e.1 = k then e.2 ++ groupMembers rest k else groupMembers rest k := by
  by_cases he : e.1 = k <;> simp [groupMembers, List.filter_cons, he]

theorem mem_groupMembers_addToGroup (m : List (String × List String))
    (k v k' p : String) :
    p ∈ groupMembers (addToGroup m k v) k' ↔
      (p = v ∧ k' = k) ∨ p ∈ groupMembers m k' := by
  induction m with
  | nil =>
    rw [show addToGroup [] k v = [(k, [v])] from rfl]
    rw [groupMembers_cons, groupMembers_nil]
    by_cases hk : k = k' <;> simp [hk, eq_comm]
  | cons e rest ih =>
    rw [show addToGroup (e :: rest) k v =
        if e.1 = k then (e.1, e.2 ++ [v]) :: rest else e :: addToGroup rest k v
      from rfl]
    by_cases he : e.1 = k
    · rw [if_pos he, groupMembers_cons, groupMembers_cons]
      by_cases hk : e.1 = k'
      · have hkk : k' = k := by rw [← hk, he]
        simp only [hk, if_pos, hkk]
        simp [List.mem_append, or_assoc, or_comm, or_left_comm]
      · have hkk : ¬ k' = k := by
          intro h
          exact hk (by rw [he, ← h])
        simp [hk, hkk]
    · rw [if_neg he, groupMembers_cons, groupMembers_cons]
      by_cases hk : e.1 = k'
      · simp [hk, ih, or_assoc, or_comm, or_left_comm]
      · simp [hk, ih]

theorem groupedProbes_nil : groupedProbes [] = [] := rfl

theorem groupedProbes_cons (e : String × List String)
    (rest : List (String × List String)) :
    groupedProbes (e :: rest) = e.2 ++ groupedProbes rest := by
  simp [groupedProbes]

theorem mem_groupedProbes_addToGroup (m : List (String × List String))
    (k v p : String) :
    p ∈ groupedProbes (addToGroup m k v) ↔ p = v ∨ p ∈ groupedProbes m := by
  induction m with
  | nil =>
    rw [show addToGroup [] k v = [(k, [v])] from rfl]
    simp [groupedProbes]
  | cons e rest ih =>
    rw [show addToGroup (e :: rest) k v =
        if e.1 = k then (e.1, e.2 ++ [v]) :: rest else e :: addToGroup rest k v
      from rfl]
    by_cases he : e.1 = k
    · rw [if_pos he, groupedProbes_cons, groupedProbes_cons]
      simp [List.mem_append, or_assoc, or_comm, or_left_comm]
    · rw [if_neg he, groupedProbes_cons, groupedProbes_cons]
      simp [ih, List.mem_append, or_assoc, or_comm, or_left_comm]

theorem mapStep_mapping (pav_keys : List String) (st : MapResult) (q : String) :
    (mapStep pav_keys st q).mapping =
      match resolveProbe pav_keys q with
      | some r => addToGroup st.mapping r q
      | none => st.mapping := by
  unfold mapStep resolveProbe
  rcases hre : regexCapture q with _ | c
  · rcases hfind : pav_keys.find? (fun key => key.isPrefixOf q) with _ | key <;>
      rw [hfind]
  · simp

theorem mapStep_unmapped (pav_keys : List String) (st : MapResult) (q : String) :
    (mapStep pav_keys st q).unmapped =
      match resolveProbe pav_keys q with
      | some _ => st.unmapped
      | none => st.unmapped ++ [q] := by
  unfold mapStep resolveProbe
  rcases hre : regexCapture q with _ | c
  · rcases hfind : pav_keys.find? (fun key => key.isPrefixOf q) with _ | key <;>
      rw [hfind]
  · simp

theorem foldl_mapStep_unmapped (pav_keys : List String) (l : List String)
    (st : MapResult) :
    (l.foldl (mapStep pav_keys) st).unmapped =
      st.unmapped ++ l.filter (fun q => (resolveProbe pav_keys q).isNone) := by
  induction l generalizing st with
  | nil => simp
  | cons q t ih =>
    rw [List.foldl_cons, ih, mapStep_unmapped]
    rcases hr : resolveProbe pav_keys q with _ | r
    · simp [List.filter_cons, hr]
    · simp [List.filter_cons, hr]

theorem mem_foldl_mapStep_mapping (pav_keys : List String) (l : List String)
    (st : MapResult) (p c : String) :
    p ∈ groupMembers (l.foldl (mapStep pav_keys) st).mapping c ↔
      p ∈ groupMembers st.mapping c ∨
        (p ∈ l ∧ resolveProbe pav_keys p = some c) := by
  induction l generalizing st with
  | nil => simp
  | cons q t ih =>
    rw [List.foldl_cons, ih, mapStep_mapping]
    rcases hr : resolveProbe pav_keys q with _ | r
    · simp only [List.mem_cons]
      constructor
      · rintro (hst | ⟨hpt, hres⟩)
        · exact Or.inl hst
        · exact Or.inr ⟨Or.inr hpt, hres⟩
      · rintro (hst | ⟨hpq | hpt, hres⟩)
        · exact Or.inl hst
        · subst hpq
          rw [hr] at hres
          exact absurd hres (by simp)
        · exact Or.inr ⟨hpt, hres⟩
    · rw [mem_groupMembers_addToGroup]
      simp only [List.mem_cons]
      constructor
      · rintro ((⟨rfl, rfl⟩ | hst) | ⟨hpt, hres⟩)
        · exact Or.inr ⟨Or.inl rfl, hr⟩
        · exact Or.inl hst
        · exact Or.inr ⟨Or.inr hpt, hres⟩
      · rintro (hst | ⟨hpq | hpt, hres⟩)
        · exact Or.inl (Or.inr hst)
        · subst hpq
          rw [hr] at hres
          obtain rfl : r = c := Option.some.inj hres
          exact Or.inl (Or.inl ⟨rfl, rfl⟩)
        · exact Or.inr ⟨hpt, hres⟩

theorem mem_foldl_mapStep_grouped (pav_keys : List String) (l : List String)
    (st : MapResult) (p : String) :
    p ∈ groupedProbes (l.foldl (mapStep pav_keys) st).mapping ↔
      p ∈ groupedProbes st.mapping ∨
        (p ∈ l ∧ (resolveProbe pav_keys p).isSome) := by
  induction l generalizing st with
  | nil => simp
  | cons q t ih =>
    rw [List.foldl_cons, ih, mapStep_mapping]
    rcases hr : resolveProbe pav_keys q with _ | r
    · simp only [List.mem_cons]
      constructor
      · rintro (hst | ⟨hpt, hres⟩)
        · exact Or.inl hst
        · exact Or.inr ⟨Or.inr hpt, hres⟩
      · rintro (hst | ⟨hpq | hpt, hres⟩)
        · exact Or.inl hst
        · subst hpq
          rw [hr] at hres
          exact absurd hres (by simp)
        · exact Or.inr ⟨hpt, hres⟩
    · rw [mem_groupedProbes_addToGroup]
      simp only [List.mem_cons]
      constructor
      · rintro ((rfl | hst) | ⟨hpt, hres⟩)
        · exact Or.inr ⟨Or.inl rfl, by rw [hr]; rfl⟩
        · exact Or.inl hst
        · exact Or.inr ⟨Or.inr hpt, hres⟩
      · rintro (hst | ⟨hpq | hpt, hres⟩)
        · exact Or.inl (Or.inr hst)
        · exact Or.inl (Or.inl hpq)
        · exact Or.inr ⟨hpt, hres⟩

/-- C1 (amended). Region Mapper resolution: when pattern extraction succeeds
the probe is assigned to the captured candidate region id unconditionally —
the candidate is never checked against the known region-id set, so a probe
can land on a region id outside it; the prefix fallback is consulted only
when pattern extraction fails; and a probe is unmapped exactly when
extraction fails and no known region id is a prefix of it. -/
theorem c1_region_resolution (pav_keys : List String)
    (probe_ids : List String) (p : String) (hp : p ∈ probe_ids) :
    (∀ c, regexCapture p = some c →
      p ∈ groupMembers (map_probes_to_pav pav_keys probe_ids).mapping c) ∧
    (regexCapture p = none →
      ∀ k, pav_keys.find? (fun key => key.isPrefixOf p) = some k →
        p ∈ groupMembers (map_probes_to_pav pav_keys probe_ids).mapping k) ∧
    ((regexCapture p = none ∧
        pav_keys.find? (fun key => key.isPrefixOf p) = none) ↔
      p ∈ (map_probes_to_pav pav_keys probe_ids).unmapped) := by
  unfold map_probes_to_pav
  refine ⟨?_, ?_, ?_⟩
  · intro c hc
    rw [mem_foldl_mapStep_mapping]
    right
    refine ⟨hp, ?_⟩
    unfold resolveProbe
    rw [hc]
  · intro hn k hk
    rw [mem_foldl_mapStep_mapping]
    right
    refine ⟨hp, ?_⟩
    unfold resolveProbe
    rw [hn, hk]
  · rw [foldl_mapStep_unmapped]
    simp only [List.nil_append, List.mem_filter, Option.isNone_iff_eq_none]
    constructor
    · rintro ⟨hre, hfind⟩
      refine ⟨hp, ?_⟩
      unfold resolveProbe
      rw [hre, hfind]
    · rintro ⟨-, hres⟩
      unfold resolveProbe at hres
      rcases hre : regexCapture p with _ | c
      · rw [hre] at hres
        exact ⟨rfl, hres⟩
      · rw [hre] at hres
        exact absurd hres (by simp)

/-- C1 is false as stated: probe id `a_b-1_x` pattern-extracts to the
candidate `a_b-1`, which is not among the known region ids `[zzz]`, yet the
mapper assigns the probe to `a_b-1` — a region id outside the known set —
instead of falling back to the prefix scan. -/
theorem c1_counterexample :
    regexCapture "a_b-1_x" = some "a_b-1" ∧
    resolveProbe ["zzz"] "a_b-1_x" = some "a_b-1" ∧
    "a_b-1" ∉ (["zzz"] : List String) ∧
    groupMembers (map_probes_to_pav ["zzz"] ["a_b-1_x"]).mapping "a_b-1" =
      ["a_b-1_x"] := by
  refine ⟨by decide, by decide, by decide, by decide⟩

/-- Witness for C1 at a concrete input: the probe `a_b-1_x` inside the input
list, with known region ids `[zzz]`. -/
theorem c1_region_resolution_witness :
    (∀ c, regexCapture "a_b-1_x" = some c →
      "a_b-1_x" ∈ groupMembers (map_probes_to_pav ["zzz"] ["a_b-1_x"]).mapping c) ∧
    (regexCapture "a_b-1_x" = none →
      ∀ k, (["zzz"] : List String).find? (fun key => key.isPrefixOf "a_b-1_x") = some k →
        "a_b-1_x" ∈ groupMembers (map_probes_to_pav ["zzz"] ["a_b-1_x"]).mapping k) ∧
    ((regexCapture "a_b-1_x" = none ∧
        (["zzz"] : List String).find? (fun key => key.isPrefixOf "a_b-1_x") = none) ↔
      "a_b-1_x" ∈ (map_probes_to_pav ["zzz"] ["a_b-1_x"]).unmapped) :=
  c1_region_resolution ["zzz"] ["a_b-1_x"] "a_b-1_x" (by decide)

/-- C8. Region Mapper partition: every input probe id lands in exactly one
of the grouping or the unmapped list — never both, never neither. -/
theorem c8_partition (pav_keys : List String) (probe_ids : List String)
    (_hnd : probe_ids.Nodup) (p : String) (hp : p ∈ probe_ids) :
    (p ∈ groupedProbes (map_probes_to_pav pav_keys probe_ids).mapping ∧
      p ∉ (map_probes_to_pav pav_keys probe_ids).unmapped) ∨
    (p ∉ groupedProbes (map_probes_to_pav pav_keys probe_ids).mapping ∧
      p ∈ (map_probes_to_pav pav_keys probe_ids).unmapped) := by
  unfold map_probes_to_pav
  have hu : ∀ x : String,
      x ∈ ((probe_ids.foldl (mapStep pav_keys) ⟨[], []⟩).unmapped) ↔
        x ∈ probe_ids ∧ resolveProbe pav_keys x = none := by
    intro x
    rw [foldl_mapStep_unmapped]
    simp [List.mem_filter, Option.isNone_iff_eq_none]
  rcases hres : resolveProbe pav_keys p with _ | r
  · right
    constructor
    · rw [mem_foldl_mapStep_grouped]
      rintro (hst | ⟨-, hsome⟩)
      · simp [groupedProbes] at hst
      · rw [hres] at hsome
        exact absurd hsome (by simp)
    · rw [hu]
      exact ⟨hp, hres⟩
  · left
    constructor
    · rw [mem_foldl_mapStep_grouped]
      right
      exact ⟨hp, by rw [hres]; rfl⟩
    · rw [hu]
      rintro ⟨-, hnone⟩
      rw [hres] at hnone
      exact absurd hnone (by simp)

/-- Witness for C8 at a concrete input: region ids `[r]` and the single
probe `r_x`, which resolves through the prefix fallback. -/
theorem c8_partition_witness :
    ("r_x" ∈ groupedProbes (map_probes_to_pav ["r"] ["r_x"]).mapping ∧
      "r_x" ∉ (map_probes_to_pav ["r"] ["r_x"]).unmapped) ∨
    ("r_x" ∉ groupedProbes (map_probes_to_pav ["r"] ["r_x"]).mapping ∧
      "r_x" ∈ (map_probes_to_pav ["r"] ["r_x"]).unmapped) :=
  c8_partition ["r"] ["r_x"] (by decide) "r_x" (by decide)

theorem chunkList_nil {α : Type} (k : ℕ) : chunkList k ([] : List α) = [] := by
  rw [chunkList]
  simp

theorem chunkList_eq {α : Type} (k : ℕ) (l : List α) (hk : k ≠ 0)
    (hl : l ≠ []) :
    chunkList k l = l.take k :: chunkList k (l.drop k) := by
  rw [chunkList]
  rw [dif_neg hk]
  rw [dif_neg (by simp [hl] : ¬ l.isEmpty = true)]

theorem chunkList_flatten {α : Type} (k : ℕ) (hk : k ≠ 0) :
    ∀ (n : ℕ) (l : List α), l.length = n → (chunkList k l).flatten = l := by
  intro n
  induction n using Nat.strong_induction_on with
  | _ n ih =>
    intro l hn
    by_cases hnil : l = []
    · subst hnil
      rw [chunkList_nil]
      rfl
    · rw [chunkList_eq k l hk hnil, List.flatten_cons]
      have hk1 : 1 ≤ k := Nat.one_le_iff_ne_zero.mpr hk
      have h1 : 0 < l.length := List.length_pos.mpr hnil
      have hlt : (l.drop k).length < n := by
        simp only [List.length_drop]
        omega
      rw [ih _ hlt (l.drop k) rfl]
      exact List.take_append_drop k l

theorem chunkList_dropLast_len {α : Type} (k : ℕ) (hk : k ≠ 0) :
    ∀ (n : ℕ) (l : List α), l.length = n →
      ∀ c ∈ (chunkList k l).dropLast, c.length = k := by
  intro n
  induction n using Nat.strong_induction_on with
  | _ n ih =>
    intro l hn
    by_cases hnil : l = []
    · subst hnil
      rw [chunkList_nil]
      intro c hc
      simp at hc
    · rw [chunkList_eq k l hk hnil]
      have hk1 : 1 ≤ k := Nat.one_le_iff_ne_zero.mpr hk
      have h1 : 0 < l.length := List.length_pos.mpr hnil
      rcases h2 : chunkList k (l.drop k) with _ | ⟨a, t⟩
      · intro c hc
        simp at hc
      · rw [List.dropLast_cons₂]
        intro c hc
        rcases List.mem_cons.mp hc with rfl | hc'
        · have hdrop : l.drop k ≠ [] := by
            intro hd
            rw [hd, chunkList_nil] at h2
            exact List.noConfusion h2
          have hklt : k < l.length := by
            by_contra hle
            push_neg at hle
            exact hdrop (List.drop_eq_nil_iff.mpr hle)
          simp only [List.length_take]
          omega
        · have hlt : (l.drop k).length < n := by
            simp only [List.length_drop]
            omega
          exact ih _ hlt (l.drop k) rfl c (by rw [h2]; exact hc')

theorem merge_and_rank_length (probes : ProbeDict)
    (arrived : List (List (String × List Hit))) :
    (merge_and_rank probes arrived).length = (arrived.map List.length).sum := by
  unfold merge_and_rank
  rw [List.length_mergeSort, List.length_flatten]
  congr 1
  rw [List.map_map]
  apply List.map_congr_left
  intro c _
  simp [static_calculate_probes_batch]

theorem merge_and_rank_sorted (probes : ProbeDict)
    (arrived : List (List (String × List Hit))) :
    List.Pairwise (fun a b : ScoreRecord => b.score ≤ a.score)
      (merge_and_rank probes arrived) := by
  unfold merge_and_rank
  have htrans : ∀ a b c : ScoreRecord,
      (fun a b : ScoreRecord => decide (b.score ≤ a.score)) a b = true →
      (fun a b : ScoreRecord => decide (b.score ≤ a.score)) b c = true →
      (fun a b : ScoreRecord => decide (b.score ≤ a.score)) a c = true := by
    intro a b c hab hbc
    simp only [decide_eq_true_eq] at *
    exact le_trans hbc hab
  have htotal : ∀ a b : ScoreRecord,
      ((fun a b : ScoreRecord => decide (b.score ≤ a.score)) a b ||
        (fun a b : ScoreRecord => decide (b.score ≤ a.score)) b a) = true := by
    intro a b
    simp only [Bool.or_eq_true, decide_eq_true_eq]
    exact le_total b.score a.score
  have hs := List.sorted_mergeSort htrans htotal
    ((arrived.map (static_calculate_probes_batch probes)).flatten)
  refine hs.imp ?_
  intro a b h
  simpa using h

/-- C7. Batch Scheduler chunking and ranking: the chunks are contiguous
slices whose concatenation is the original pair list, every chunk but
possibly the last has exactly `chunk_size` elements, and — for any subset
`kept` of the chunks (the non-skipped ones) arriving in any completion order
`arrived` — the merged result is sorted with scores non-increasing and its
length is the total number of probes of the kept chunks. -/
theorem c7_chunking_and_ranking (probes : ProbeDict)
    (pairs : List (String × List Hit)) (k : ℕ)
    (kept arrived : List (List (String × List Hit)))
    (hk : 0 < k) (_hkept : kept.Sublist (chunkList k pairs))
    (harr : arrived.Perm kept) :
    (chunkList k pairs).flatten = pairs ∧
    (∀ c ∈ (chunkList k pairs).dropLast, c.length = k) ∧
    List.Pairwise (fun a b : ScoreRecord => b.score ≤ a.score)
      (merge_and_rank probes arrived) ∧
    (merge_and_rank probes arrived).length = (kept.map List.length).sum := by
  have hk0 : k ≠ 0 := Nat.pos_iff_ne_zero.mp hk
  refine ⟨chunkList_flatten k hk0 pairs.length pairs rfl,
    chunkList_dropLast_len k hk0 pairs.length pairs rfl,
    merge_and_rank_sorted probes arrived, ?_⟩
  rw [merge_and_rank_length]
  exact List.Perm.sum_eq (harr.map List.length)

/-- Witness for C7 at a concrete input: two pairs, chunk size 1, all chunks
kept, arriving in their original order. -/
theorem c7_chunking_and_ranking_witness :
    (chunkList 1 [("a", ([] : List Hit)), ("b", [])]).flatten =
      [("a", ([] : List Hit)), ("b", [])] ∧
    (∀ c ∈ (chunkList 1 [("a", ([] : List Hit)), ("b", [])]).dropLast,
      c.length = 1) ∧
    List.Pairwise (fun a b : ScoreRecord => b.score ≤ a.score)
      (merge_and_rank [] (chunkList 1 [("a", ([] : List Hit)), ("b", [])])) ∧
    (merge_and_rank [] (chunkList 1 [("a", ([] : List Hit)), ("b", [])])).length =
      ((chunkList 1 [("a", ([] : List Hit)), ("b", [])]).map List.length).sum :=
  c7_chunking_and_ranking [] [("a", []), ("b", [])] 1
    (chunkList 1 [("a", []), ("b", [])]) (chunkList 1 [("a", []), ("b", [])])
    one_pos (List.Sublist.refl _) (List.Perm.refl _)

theorem mem_keys_dictInsert (d : List (String × String)) (k v p : String) :
    (∃ w, (p, w) ∈ dictInsert d k v) ↔ p = k ∨ ∃ w, (p, w) ∈ d := by
  unfold dictInsert
  by_cases hk : (d.find? (fun e => e.1 == k)).isSome = true
  · rw [if_pos hk]
    constructor
    · rintro ⟨w, hw⟩
      obtain ⟨e, he, heq⟩ := List.mem_map.mp hw
      by_cases hek : (e.1 == k) = true
      · rw [if_pos hek] at heq
        left
        have := (Prod.mk.injEq _ _ _ _).mp heq.symm
        rw [this.1]
        simpa using hek
      · rw [if_neg hek] at heq
        right
        exact ⟨w, heq ▸ he⟩
    · rintro (rfl | ⟨w, hw⟩)
      · obtain ⟨e, he⟩ := Option.isSome_iff_exists.mp hk
        have hee : e ∈ d := List.mem_of_find?_eq_some he
        have hek := List.find?_some he
        refine ⟨v, List.mem_map.mpr ⟨e, hee, ?_⟩⟩
        rw [if_pos hek]
        have : e.1 = p := by simpa using hek
        rw [this]
      · by_cases hpk : (p == k) = true
        · refine ⟨v, List.mem_map.mpr ⟨(p, w), hw, ?_⟩⟩
          rw [if_pos hpk]
        · refine ⟨w, List.mem_map.mpr ⟨(p, w), hw, ?_⟩⟩
          rw [if_neg hpk]
  · rw [if_neg hk]
    constructor
    · rintro ⟨w, hw⟩
      rcases List.mem_append.mp hw with hw | hw
      · exact Or.inr ⟨w, hw⟩
      · left
        have := List.mem_singleton.mp hw
        exact ((Prod.mk.injEq _ _ _ _).mp this).1
    · rintro (rfl | ⟨w, hw⟩)
      · exact ⟨v, List.mem_append.mpr (Or.inr (List.mem_singleton.mpr rfl))⟩
      · exact ⟨w, List.mem_append.mpr (Or.inl hw)⟩

theorem hq_fold_keys (probes : ProbeDict) (scores : List ScoreRecord) (t : ℚ)
    (d : List (String × String)) (p : String) :
    (∃ w, (p, w) ∈ scores.foldl (fun d r =>
        if t ≤ r.score ∧ r.in_fasta = true then
          dictInsert d r.probe_id (dictGet probes r.probe_id)
        else d) d) ↔
      (∃ w, (p, w) ∈ d) ∨
        ∃ r ∈ scores, r.probe_id = p ∧ t ≤ r.score ∧ r.in_fasta = true := by
  induction scores generalizing d with
  | nil => simp
  | cons r rest ih =>
    rw [List.foldl_cons]
    by_cases hq : t ≤ r.score ∧ r.in_fasta = true
    · rw [if_pos hq, ih, mem_keys_dictInsert]
      constructor
      · rintro ((rfl | hd) | hrest)
        · exact Or.inr ⟨r, List.mem_cons_self r rest, rfl, hq⟩
        · exact Or.inl hd
        · obtain ⟨x, hx, hrest'⟩ := hrest
          exact Or.inr ⟨x, List.mem_cons_of_mem r hx, hrest'⟩
      · rintro (hd | ⟨x, hx, hpx, hqx⟩)
        · exact Or.inl (Or.inr hd)
        · rcases List.mem_cons.mp hx with rfl | hx'
          · exact Or.inl (Or.inl hpx.symm)
          · exact Or.inr ⟨x, hx', hpx, hqx⟩
    · rw [if_neg hq, ih]
      constructor
      · rintro (hd | ⟨x, hx, hrest'⟩)
        · exact Or.inl hd
        · exact Or.inr ⟨x, List.mem_cons_of_mem r hx, hrest'⟩
      · rintro (hd | ⟨x, hx, hpx, hqx⟩)
        · exact Or.inl hd
        · rcases List.mem_cons.mp hx with rfl | hx'
          · exact absurd hqx hq
          · exact Or.inr ⟨x, hx', hpx, hqx⟩

theorem hq_fold_const (probes : ProbeDict) (scores : List ScoreRecord) (t : ℚ)
    (d : List (String × String))
    (hnone : ∀ r ∈ scores, ¬(t ≤ r.score ∧ r.in_fasta = true)) :
    scores.foldl (fun d r =>
        if t ≤ r.score ∧ r.in_fasta = true then
          dictInsert d r.probe_id (dictGet probes r.probe_id)
        else d) d = d := by
  induction scores generalizing d with
  | nil => rfl
  | cons r rest ih =>
    rw [List.foldl_cons, if_neg (hnone r (List.mem_cons_self r rest))]
    exact ih d (fun x hx => hnone x (List.mem_cons_of_mem r hx))

theorem pickBestStep_none (r : ScoreRecord) :
    pickBestStep none r = if r.in_fasta = true then some r else none := by
  unfold pickBestStep
  by_cases hf : r.in_fasta = true <;> simp [hf]

theorem pickBestStep_some_spec (a : ScoreRecord) (r : ScoreRecord) :
    ∃ b, pickBestStep (some a) r = some b ∧ a.score ≤ b.score ∧
      (b = a ∨ (b = r ∧ r.in_fasta = true)) := by
  unfold pickBestStep
  by_cases hf : r.in_fasta = true
  · by_cases hlt : a.score < r.score
    · exact ⟨r, by simp [hf, hlt], le_of_lt hlt, Or.inr ⟨rfl, hf⟩⟩
    · exact ⟨a, by simp [hf, hlt], le_refl _, Or.inl rfl⟩
  · exact ⟨a, by simp [hf], le_refl _, Or.inl rfl⟩

theorem pickBestStep_fasta (acc : Option ScoreRecord) (r : ScoreRecord)
    (hf : r.in_fasta = true) :
    ∃ c, pickBestStep acc r = some c ∧ r.score ≤ c.score := by
  rcases acc with _ | a
  · exact ⟨r, by rw [pickBestStep_none, if_pos hf], le_refl _⟩
  · obtain ⟨b, hb, _, hcase⟩ := pickBestStep_some_spec a r
    refine ⟨b, hb, ?_⟩
    rcases hcase with rfl | ⟨rfl, -⟩
    · unfold pickBestStep at hb
      by_cases hlt : b.score < r.score
      · simp [hf, hlt] at hb
        subst hb
        exact le_refl _
      · exact le_of_not_lt hlt
    · exact le_refl _

theorem pickBest_fold_spec (l : List ScoreRecord) :
    ∀ acc : Option ScoreRecord,
      (∀ b, l.foldl pickBestStep acc = some b →
        ((b ∈ l ∧ b.in_fasta = true) ∨ acc = some b)) ∧
      (∀ a, acc = some a →
        ∃ b, l.foldl pickBestStep acc = some b ∧ a.score ≤ b.score) ∧
      (∀ b, l.foldl pickBestStep acc = some b →
        ∀ r ∈ l, r.in_fasta = true → r.score ≤ b.score) := by
  induction l with
  | nil =>
    intro acc
    refine ⟨fun b hb => Or.inr hb, fun a ha => ⟨a, ha, le_refl _⟩, ?_⟩
    intro b _ r hr
    simp at hr
  | cons r rest ih =>
    intro acc
    refine ⟨?_, ?_, ?_⟩
    · intro b hb
      rw [List.foldl_cons] at hb
      rcases (ih (pickBestStep acc r)).1 b hb with ⟨hmem, hf⟩ | hacc
      · exact Or.inl ⟨List.mem_cons_of_mem r hmem, hf⟩
      · rcases hc : acc with _ | a
        · rw [hc, pickBestStep_none] at hacc
          by_cases hf : r.in_fasta = true
          · rw [if_pos hf] at hacc
            obtain rfl : r = b := Option.some.inj hacc
            exact Or.inl ⟨List.mem_cons_self r rest, hf⟩
          · rw [if_neg hf] at hacc
            exact absurd hacc (by simp)
        · rw [hc] at hacc
          obtain ⟨c, hcb, _, hcase⟩ := pickBestStep_some_spec a r
          rw [hcb] at hacc
          obtain rfl : c = b := Option.some.inj hacc
          rcases hcase with rfl | ⟨rfl, hf⟩
          · exact Or.inr rfl
          · exact Or.inl ⟨List.mem_cons_self _ rest, hf⟩
    · intro a ha
      rw [List.foldl_cons]
      subst ha
      obtain ⟨c, hc, hac, -⟩ := pickBestStep_some_spec a r
      rw [hc]
      obtain ⟨b, hb, hcb⟩ := (ih (some c)).2.1 c rfl
      exact ⟨b, hb, le_trans hac hcb⟩
    · intro b hb x hx hxf
      rw [List.foldl_cons] at hb
      rcases List.mem_cons.mp hx with rfl | hx'
      · obtain ⟨c, hc, hxc⟩ := pickBestStep_fasta acc x hxf
        rw [hc] at hb
        obtain ⟨b', hb', hcb'⟩ := (ih (some c)).2.1 c rfl
        rw [hb] at hb'
        obtain rfl : b = b' := Option.some.inj hb'
        exact le_trans hxc hcb'
      · exact (ih (pickBestStep acc r)).2.2 b hb x hx' hxf

theorem foldl_pickBestStep_isSome (l : List ScoreRecord) :
    ∀ (acc : Option ScoreRecord) (r : ScoreRecord), r ∈ l →
      r.in_fasta = true → (l.foldl pickBestStep acc).isSome = true := by
  induction l with
  | nil =>
    intro acc r hr
    simp at hr
  | cons x rest ih =>
    intro acc r hr hf
    rw [List.foldl_cons]
    rcases List.mem_cons.mp hr with rfl | hr'
    · obtain ⟨c, hc, -⟩ := pickBestStep_fasta acc r hf
      rw [hc]
      obtain ⟨b, hb, -⟩ := (pickBest_fold_spec rest (some c)).2.1 c rfl
      rw [hb]
      rfl
    · exact ih (pickBestStep acc x) r hr' hf

theorem pickBest_spec (scores : List ScoreRecord)
    (hex : ∃ r ∈ scores, r.in_fasta = true) :
    ∃ best, pickBest scores = some best ∧ best ∈ scores ∧
      best.in_fasta = true ∧
      ∀ r ∈ scores, r.in_fasta = true → r.score ≤ best.score := by
  obtain ⟨r0, hr0, hf0⟩ := hex
  have hsome := foldl_pickBestStep_isSome scores none r0 hr0 hf0
  unfold pickBest
  rcases hb : scores.foldl pickBestStep none with _ | best
  · rw [hb] at hsome
    exact absurd hsome (by simp)
  · rcases (pickBest_fold_spec scores none).1 best hb with ⟨hmem, hf⟩ | habs
    · exact ⟨best, rfl, hmem, hf, (pickBest_fold_spec scores none).2.2 best hb⟩
    · exact absurd habs (by simp)

/-- C10. High-quality extraction: with the default threshold (60.0, not the
configured SCORE_THRESHOLD), when some record clears the threshold and is in
the sequence universe, the output keys are exactly the probes with
`score ≥ 60` and `in_fasta`; when none clears it but some record is in the
universe, the output is a single entry for a highest-scoring in-universe
probe — so a below-threshold probe can appear in the high-quality output. -/
theorem c10_extract_high_quality (probes : ProbeDict)
    (scores : List ScoreRecord) :
    ((∃ r ∈ scores, 60 ≤ r.score ∧ r.in_fasta = true) →
      ∀ p, (∃ w, (p, w) ∈ extract_high_quality_probes probes scores none) ↔
        ∃ r ∈ scores, r.probe_id = p ∧ 60 ≤ r.score ∧ r.in_fasta = true) ∧
    ((∀ r ∈ scores, ¬ (60 ≤ r.score ∧ r.in_fasta = true)) →
      (∃ r ∈ scores, r.in_fasta = true) →
      ∃ best ∈ scores, best.in_fasta = true ∧
        (∀ r ∈ scores, r.in_fasta = true → r.score ≤ best.score) ∧
        extract_high_quality_probes probes scores none =
          [(best.probe_id, dictGet probes best.probe_id)]) := by
  constructor
  · intro hex p
    obtain ⟨r0, hr0, hq0⟩ := hex
    have hne : scores.foldl (fun d r =>
        if (60:ℚ) ≤ r.score ∧ r.in_fasta = true then
          dictInsert d r.probe_id (dictGet probes r.probe_id)
        else d) [] ≠ [] := by
      intro hzero
      have := (hq_fold_keys probes scores 60 [] r0.probe_id).mpr
        (Or.inr ⟨r0, hr0, rfl, hq0⟩)
      rw [hzero] at this
      obtain ⟨w, hw⟩ := this
      simp at hw
    simp only [extract_high_quality_probes]
    rw [if_neg (by intro hand; exact hne hand.1)]
    rw [hq_fold_keys]
    simp
  · intro hnone hex
    obtain ⟨best, hpick, hmem, hf, hmax⟩ := pickBest_spec scores hex
    refine ⟨best, hmem, hf, hmax, ?_⟩
    simp only [extract_high_quality_probes]
    rw [hq_fold_const probes scores 60 [] hnone]
    have hsne : scores ≠ [] := by
      obtain ⟨r, hr, -⟩ := hex
      intro hz
      rw [hz] at hr
      simp at hr
    have hany : scores.any (fun r => r.in_fasta) = true := by
      obtain ⟨r, hr, hrf⟩ := hex
      exact List.any_eq_true.mpr ⟨r, hr, hrf⟩
    rw [if_pos ⟨rfl, hsne, hany⟩]
    rw [hpick]
    rfl

end ProbeCore
